import Mathlib

/-!
Verification of the devwrap Local Lease & Route Reconciliation Engine.

This file shallowly embeds the lease-manager, port-allocator, route-reconciler,
host-validation and TLS-policy-sync code of the devwrap repository
(cmd/devwrap/local_state.go, proxy_external.go, host.go, cli.go) and proves the
spec claims about them.  Side-effecting collaborators (the OS process table,
loopback bind probes, the Caddy admin HTTP API, the persisted state file) are
modelled as explicit oracles in an `Env` record; machine integers are `Nat`/`Int`.
-/

namespace Devwrap

/-- One tracked application lease (struct `App` in daemon.go). -/
structure App where
  name : String
  host : String
  port : Nat
  pid : Int
  startedAt : String
deriving DecidableEq, Repr

/-- The persisted state document after decoding (struct `daemonState`).
The Go `map[string]App` is modelled as an association list with unique keys. -/
structure daemonState where
  version : Int
  caddySource : String
  root : Bool
  httpPort : Nat
  httpsPort : Nat
  apps : List (String × App)
deriving DecidableEq, Repr

/-- A lease descriptor returned to the caller (struct `Lease` in client.go). -/
structure Lease where
  name : String
  host : String
  port : Nat
  httpURL : String
  httpsURL : String
  trusted : Bool
deriving DecidableEq, Repr

/-- Aggregate status snapshot (struct `ProxyStatus` in client.go). -/
structure ProxyStatus where
  running : Bool
  caddySource : String
  root : Bool
  httpPort : Nat
  httpsPort : Nat
  trusted : Bool
  pid : Int
  apps : List App
deriving DecidableEq, Repr

/-- Result of `inspectExternalCaddy` (struct `externalCaddyInfo`). -/
structure CaddyInfo where
  httpPort : Nat
  httpsPort : Nat
  managed : Bool
deriving DecidableEq, Repr

/-- The raw on-disk JSON document as parsed, before the loader normalizes it.
`apps = none` models a JSON document without an `apps` object (Go `nil` map);
`unknownFields` models JSON fields that are not part of the schema. -/
structure StateDoc where
  version : Int
  caddySource : String
  root : Bool
  httpPort : Nat
  httpsPort : Nat
  apps : Option (List (String × App))
  unknownFields : List String
deriving DecidableEq, Repr

/-- What `os.ReadFile` + `json.Unmarshal` can observe of the state file:
absent, unreadable, unparsable, or a parsed document. -/
inductive FileRead where
  | missing
  | readErr (msg : String)
  | corrupt
  | doc (d : StateDoc)
deriving DecidableEq, Repr

/-- The environment of oracles standing for the OS and the Caddy admin API:
`alive` is `syscall.Kill(pid, 0) == nil`, `bindable` is the success of
`net.Listen("tcp", "127.0.0.1:<port>")`, `admin` is the outcome of
`applyRoutesViaAdmin` (the discovered HTTP/HTTPS listener ports, or an error),
`caddyInfo` is `inspectExternalCaddy`, `daemonPID` is `readDaemonPID`,
`trusted` is `isCertTrusted()`, and `now` is the formatted current time. -/
structure Env where
  alive : Int → Bool
  bindable : Nat → Bool
  admin : List (String × App) → Except String (Nat × Nat)
  caddyInfo : Except String CaddyInfo
  daemonPID : Except String Int
  trusted : Bool
  now : String

/-- `processAlive` from main.go: non-positive PIDs are never alive. -/
def processAlive (env : Env) (pid : Int) : Bool :=
  if pid ≤ 0 then false else env.alive pid

deriving instance DecidableEq for Except

/-- The observable outcome of one lease-manager operation: the returned value
or error, the persisted state file after the call, and the apps map that was
handed to the route reconciler (`applyRoutesViaAdmin`), if it was invoked. -/
structure OpOut (α : Type) where
  res : Except String α
  file : FileRead
  pushed : Option (List (String × App))
deriving DecidableEq, Repr

/-! ### Association-list primitives for the Go `map[string]App` -/

/-- Lookup `m[k]` in the apps map. -/
def lookupApp : List (String × App) → String → Option App
  | [], _ => none
  | p :: rest, k => if p.1 = k then some p.2 else lookupApp rest k

/-- `m[k] = v`: replace the entry in place if the key exists, else append. -/
def upsert : List (String × App) → String → App → List (String × App)
  | [], k, v => [(k, v)]
  | p :: rest, k, v => if p.1 = k then (k, v) :: rest else p :: upsert rest k v

/-- `delete(m, k)`. -/
def eraseKey (m : List (String × App)) (k : String) : List (String × App) :=
  m.filter (fun p => p.1 ≠ k)

/-! ### State store (`loadLocalState` / `saveLocalState` in local_state.go) -/

/-- The default empty state `loadLocalState` starts from. -/
def defaultDaemonState : daemonState :=
  ⟨1, "unmanaged", false, 80, 443, []⟩

/-- Decoding of a parsed document, including the loader normalizations:
a `nil` apps map becomes empty, legacy `caddySource` values are rewritten.
Unknown JSON fields are ignored (never read). -/
def decodeDoc (d : StateDoc) : daemonState :=
  let cs :=
    if d.caddySource = "" ∨ d.caddySource = "existing" then "unmanaged"
    else if d.caddySource = "spawned" then "managed"
    else d.caddySource
  ⟨d.version, cs, d.root, d.httpPort, d.httpsPort, d.apps.getD []⟩

/-- `loadLocalState`: a missing file and an unparsable file both yield the
default state without error; only a read error is surfaced.  The document
version is never inspected. -/
def loadLocalState : FileRead → Except String daemonState
  | .missing => .ok defaultDaemonState
  | .readErr m => .error m
  | .corrupt => .ok defaultDaemonState
  | .doc d => .ok (decodeDoc d)

/-- Serialization performed by `saveLocalState` (atomic tmp-write + rename is
collapsed into producing the new file content). -/
def encodeDoc (s : daemonState) : StateDoc :=
  ⟨s.version, s.caddySource, s.root, s.httpPort, s.httpsPort, some s.apps, []⟩

/-- `saveLocalState`. -/
def saveLocalState (s : daemonState) : FileRead :=
  .doc (encodeDoc s)

/-- The app set held by the persisted file, as the loader would read it back. -/
def fileApps (f : FileRead) : List (String × App) :=
  match loadLocalState f with
  | .ok s => s.apps
  | .error _ => []

/-! ### Port allocator (`allocatePortFromApps` in local_state.go) -/

/-- The ports recorded by live leases. -/
def usedPorts (apps : List (String × App)) : List Nat :=
  apps.map (fun p => p.2.port)

/-- The scan loop of `allocatePortFromApps`: try `fuel` consecutive ports
starting at `port`, skipping recorded ports, probing a loopback bind on the
rest, returning the first bindable port. -/
def allocFrom (env : Env) (used : List Nat) : Nat → Nat → Except String Nat
  | _, 0 => .error ("no free ports in range 11000-19999")
  | port, fuel + 1 =>
    if port ∈ used then allocFrom env used (port + 1) fuel
    else if env.bindable port then .ok port
    else allocFrom env used (port + 1) fuel

/-- `allocatePortFromApps`: scan ascending over 11000..19999. -/
def allocatePortFromApps (env : Env) (apps : List (String × App)) : Except String Nat :=
  allocFrom env (usedPorts apps) 11000 9000

/-! ### Route reconciler (`makeDevwrapRoutes` / `mergeExternalRoutes`) -/

/-- A route entry in the live Caddy config that is a JSON object.  `id` is the
`@id` field when present with string type; `matchHosts` are the host lists of
the `match` array; `handle` holds (handler, upstream dials) pairs; `extra`
stands for all other JSON content, carried verbatim. -/
structure RouteObj where
  id : Option String
  matchHosts : List (List String)
  handle : List (String × List String)
  extra : String
deriving DecidableEq, Repr

/-- A route list element: a JSON object, or any other JSON value (preserved
verbatim by the merge, as in the Go type switch). -/
inductive Route where
  | obj (o : RouteObj)
  | nonObj (raw : String)
deriving DecidableEq, Repr

/-- `strings.HasPrefix` on the underlying character lists. -/
def strStartsWith (p s : String) : Bool :=
  p.data.isPrefixOf s.data

/-- The ownership test of `mergeExternalRoutes`: a JSON object whose `@id`
string has the reserved `devwrap-` marker.  A missing or non-string `@id`
reads as the empty string, exactly as `routeMap["@id"].(string)` does. -/
def routeIsDevwrap : Route → Bool
  | .obj o => strStartsWith ("devwrap-") (o.id.getD (""))
  | .nonObj _ => false

/-- The owned route `makeDevwrapRoutes` builds for one app: `@id devwrap-<name>`,
an exact host match, one reverse-proxy upstream at `127.0.0.1:<port>`. -/
def mkAppRoute (a : App) : RouteObj :=
  ⟨some ("devwrap-" ++ a.name), [[a.host]],
    [("reverse_proxy", ["127.0.0.1:" ++ toString a.port])], ""⟩

/-- `makeDevwrapRoutes`: one owned route per tracked app, in ascending order
of the app names (`sort.Strings`). -/
def makeDevwrapRoutes (apps : List (String × App)) : List RouteObj :=
  ((apps.map Prod.fst).insertionSort (fun s t => s ≤ t)).filterMap
    (fun n => (lookupApp apps n).map mkAppRoute)

/-- The filter loop of `mergeExternalRoutes`: keep every existing route that
does not carry the owned marker, in order. -/
def mergeKeep : List Route → List Route
  | [] => []
  | r :: rest => if routeIsDevwrap r then mergeKeep rest else r :: mergeKeep rest

/-- `mergeExternalRoutes`: drop existing owned routes, keep foreign routes
verbatim in order, append the freshly computed owned routes. -/
def mergeExternalRoutes (existing : List Route) (devwrapRoutes : List RouteObj) :
    List Route :=
  mergeKeep existing ++ devwrapRoutes.map Route.obj

/-! ### Host validation (`host.go`) and name validation (`cli.go`) -/

/-- ASCII whitespace, as `strings.TrimSpace` strips it for ASCII input. -/
def isSpaceChar (c : Char) : Bool :=
  c = (' ') || c = ('\t') || c = ('\n') || c = ('\r')

/-- `strings.TrimSpace` on character lists. -/
def trimChars (l : List Char) : List Char :=
  ((l.dropWhile isSpaceChar).reverse.dropWhile isSpaceChar).reverse

/-- `strings.ToLower(strings.TrimSpace(s))`, the normalization both
`normalizeHost` and `tlsSubjectForHost` start with. -/
def trimLower (s : String) : String :=
  String.mk ((trimChars s.toList).map Char.toLower)

/-- `strings.Contains` on character lists. -/
def containsSub : List Char → List Char → Bool
  | [], needle => needle.isEmpty
  | c :: t, needle => needle.isPrefixOf (c :: t) || containsSub t needle

/-- One label check of `normalizeHost`'s loop body. -/
def checkLabel (l : List Char) : Except String Unit :=
  if l.isEmpty then .error ("host format is invalid")
  else if l.head? = some ('-') ∨ l.getLast? = some ('-') then
    .error ("host labels cannot start or end with a dash")
  else if l.all (fun c => decide (('a' ≤ c ∧ c ≤ 'z') ∨ ('0' ≤ c ∧ c ≤ '9') ∨ c = ('-'))) then
    .ok ()
  else .error ("host can use lowercase letters, numbers, dots, and dashes")

/-- The label loop of `normalizeHost`: first failing label wins. -/
def checkLabels : List (List Char) → Except String Unit
  | [] => .ok ()
  | l :: rest =>
    match checkLabel l with
    | .error e => .error e
    | .ok _ => checkLabels rest

/-- `normalizeHost` from host.go. -/
def normalizeHost (raw : String) : Except String String :=
  let host := trimLower raw
  let cs := host.toList
  if host = "" then .error ("host cannot be empty")
  else if containsSub cs (String.toList ("://")) then
    .error ("host must be a hostname without scheme")
  else if cs.contains ('/') then .error ("host must not include a path")
  else if cs.contains (':') then .error ("host must not include a port")
  else if cs.head? = some ('.') ∨ cs.getLast? = some ('.') ∨
      containsSub cs (String.toList ("..")) then
    .error ("host format is invalid")
  else
    match checkLabels (cs.splitOn ('.')) with
    | .error e => .error e
    | .ok _ => .ok host

/-- `hostForApp` from host.go: default `<name>.localhost`, else the validated
custom host. -/
def hostForApp (name customHost : String) : Except String String :=
  if customHost = "" then .ok (name ++ ".localhost")
  else normalizeHost customHost

/-- `validateName` from cli.go. -/
def validateName (name : String) : Except String Unit :=
  if name = "" then .error ("app name cannot be empty")
  else if name.toList.all
      (fun c => decide (('a' ≤ c ∧ c ≤ 'z') ∨ ('0' ≤ c ∧ c ≤ '9') ∨ c = ('-'))) then
    if name.toList.head? = some ('-') ∨ name.toList.getLast? = some ('-') then
      .error ("app name cannot start or end with a dash")
    else .ok ()
  else .error ("app name must use lowercase letters, numbers, or dashes")

/-! ### Lease manager (`local_state.go`) -/

/-- Staleness eviction: drop every entry whose owning process is not alive. -/
def evictApps (env : Env) (apps : List (String × App)) : List (String × App) :=
  apps.filter (fun p => processAlive env p.2.pid)

/-- The existing-or-new branch of `requestLeaseDirect`: an existing entry gets
its owner PID and timestamp updated in place; otherwise a port is allocated
and a new entry with the default host is created. -/
def resolveApp (env : Env) (apps : List (String × App)) (name : String) (pid : Int) :
    Except String App :=
  match lookupApp apps name with
  | some a => .ok { a with pid := pid, startedAt := env.now }
  | none =>
    match allocatePortFromApps env apps with
    | .ok port => .ok ⟨name, name ++ ".localhost", port, pid, env.now⟩
    | .error e => .error e

/-- `leaseFromAppAndPorts` from local_state.go. -/
def leaseFromAppAndPorts (env : Env) (a : App) (httpPort httpsPort : Nat) : Lease :=
  let httpURL := "http://" ++ a.host ++
    (if httpPort = 80 then "" else ":" ++ toString httpPort)
  let httpsURL := "https://" ++ a.host ++
    (if httpsPort = 443 then "" else ":" ++ toString httpsPort)
  ⟨a.name, a.host, a.port, httpURL, httpsURL, env.trusted⟩

/-- `requestLeaseDirect` from local_state.go (the two-argument body under
src/unnamed/part_000): load, evict, update-or-create, reconcile routes,
persist, return the lease.  Any failure before the save leaves the persisted
file untouched. -/
def requestLeaseDirect (env : Env) (file : FileRead) (name : String) (pid : Int) :
    OpOut Lease :=
  match loadLocalState file with
  | .error e => ⟨.error e, file, none⟩
  | .ok st =>
    let apps := evictApps env st.apps
    match resolveApp env apps name pid with
    | .error e => ⟨.error e, file, none⟩
    | .ok app =>
      let apps2 := upsert apps name app
      match env.admin apps2 with
      | .error e => ⟨.error e, file, some apps2⟩
      | .ok (hp, hs) =>
        let st2 : daemonState := ⟨1, "unmanaged", hp == 80 && hs == 443, hp, hs, apps2⟩
        ⟨.ok (leaseFromAppAndPorts env app hp hs), saveLocalState st2, some apps2⟩

/-- Modelled from the spec: the three-argument lease acquisition reached via
`acquireLease(name, host, pid)` in client.go.  Its body is not present under
src (src/unnamed/part_000 carries an older two-argument variant that ignores
the resolved host); per §4.6 and §3 of the spec the only difference is that a
newly created entry records the resolved host instead of the default. -/
def requestLeaseHost (env : Env) (file : FileRead) (name host : String) (pid : Int) :
    OpOut Lease :=
  match loadLocalState file with
  | .error e => ⟨.error e, file, none⟩
  | .ok st =>
    let apps := evictApps env st.apps
    let appE : Except String App :=
      match lookupApp apps name with
      | some a => .ok { a with pid := pid, startedAt := env.now }
      | none =>
        match allocatePortFromApps env apps with
        | .ok port => .ok ⟨name, host, port, pid, env.now⟩
        | .error e => .error e
    match appE with
    | .error e => ⟨.error e, file, none⟩
    | .ok app =>
      let apps2 := upsert apps name app
      match env.admin apps2 with
      | .error e => ⟨.error e, file, some apps2⟩
      | .ok (hp, hs) =>
        let st2 : daemonState := ⟨1, "unmanaged", hp == 80 && hs == 443, hp, hs, apps2⟩
        ⟨.ok (leaseFromAppAndPorts env app hp hs), saveLocalState st2, some apps2⟩

/-- The acquisition pipeline of `runApp` in cli.go up to lease acquisition:
validate the app name, resolve the host (rejecting an invalid custom host
before anything else runs), then acquire the lease. -/
def runAppAcquire (env : Env) (file : FileRead) (name customHost : String) (pid : Int) :
    OpOut Lease :=
  match validateName name with
  | .error e => ⟨.error e, file, none⟩
  | .ok _ =>
    match hostForApp name customHost with
    | .error e => ⟨.error e, file, none⟩
    | .ok host => requestLeaseHost env file name host pid

/-- The body of `releaseLeaseDirect` (local_state.go): no eviction pass; the
named entry is deleted only when the PID guard passes; the deletion is
persisted only after a successful route reconciliation.  `releaseLeaseDirect`
itself discards the returned error. -/
def releaseLeaseCore (env : Env) (file : FileRead) (name : String) (pid : Int) :
    OpOut Unit :=
  match loadLocalState file with
  | .error e => ⟨.error e, file, none⟩
  | .ok st =>
    match lookupApp st.apps name with
    | none => ⟨.ok (), file, none⟩
    | some a =>
      if pid > 0 ∧ a.pid ≠ pid then ⟨.ok (), file, none⟩
      else
        let apps2 := eraseKey st.apps name
        match env.admin apps2 with
        | .error e => ⟨.error e, file, some apps2⟩
        | .ok _ => ⟨.ok (), saveLocalState { st with apps := apps2 }, some apps2⟩

/-- `localStatusFromFiles` (local_state.go): inspect the proxy, load, evict
dead entries (persisting and reconciling routes only if something was
evicted; those two calls ignore errors), and report the aggregate view. -/
def localStatusFromFiles (env : Env) (file : FileRead) : OpOut ProxyStatus :=
  match env.caddyInfo with
  | .error e => ⟨.error e, file, none⟩
  | .ok info =>
    match loadLocalState file with
    | .error e => ⟨.error e, file, none⟩
    | .ok st =>
      let apps2 := evictApps env st.apps
      let changed := st.apps.any (fun p => !(processAlive env p.2.pid))
      let file2 := if changed then saveLocalState { st with apps := apps2 } else file
      let pushed := if changed then some apps2 else none
      let appList := (apps2.map Prod.snd).insertionSort (fun a b => a.name ≤ b.name)
      let source := if info.managed then "managed" else "unmanaged"
      let pid : Int :=
        if info.managed then
          match env.daemonPID with
          | .ok p => if processAlive env p then p else 0
          | .error _ => 0
        else 0
      ⟨.ok ⟨true, source, info.httpPort == 80 && info.httpsPort == 443,
          info.httpPort, info.httpsPort, env.trusted, pid, appList⟩, file2, pushed⟩

/-! ### TLS subject policy synchronizer (`proxy_external.go`) -/

/-- The reserved policy identifier. -/
def devwrapInternalTLSPolicyID : String := "devwrap-internal-policy"

/-- An automation policy in the live config: a JSON object (with its `@id`
when present as a string, its subjects, whether its issuer is the internal
one, and all other content verbatim) or a non-object entry. -/
structure PolicyObj where
  id : Option String
  subjects : List String
  issuersInternal : Bool
  extra : String
deriving DecidableEq, Repr

/-- A policy list element. -/
inductive Policy where
  | obj (o : PolicyObj)
  | nonObj (raw : String)
deriving DecidableEq, Repr

/-- `tlsSubjectForHost`: generalize a host to its wildcard form; a bare
single-label host (or a leading/trailing dot) maps to itself. -/
def tlsSubjectForHost (host : String) : String :=
  let h := trimLower host
  let cs := h.toList
  match cs.indexOf? ('.') with
  | some i => if 0 < i ∧ i + 1 < cs.length then "*." ++ String.mk (cs.drop (i + 1)) else h
  | none => h

/-- The deduplicated, sorted subject set computed by
`syncDevwrapInternalTLSPolicy` from the live apps. -/
def subjectsOf (apps : List (String × App)) : List String :=
  ((apps.map (fun p => tlsSubjectForHost p.2.host)).dedup).insertionSort (fun s t => s ≤ t)

/-- `mergeDevwrapInternalTLSPolicy`: a fresh owned policy first (only when
there are subjects), then every existing policy except the owned one. -/
def mergeDevwrapInternalTLSPolicy (existing : List Policy) (hosts : List String) :
    List Policy :=
  (if hosts.isEmpty then [] else
    [Policy.obj ⟨some devwrapInternalTLSPolicyID, hosts, true, ""⟩]) ++
  existing.filter (fun p =>
    match p with
    | .obj o => o.id.getD ("") ≠ devwrapInternalTLSPolicyID
    | .nonObj _ => true)

/-- A mutating admin-API request issued during TLS policy sync. -/
inductive TLSWrite where
  | patchPolicies (ps : List Policy)
  | deletePolicies
  | putPolicies (ps : List Policy)
  | createTLSApp (ps : List Policy)
deriving DecidableEq, Repr

/-- The TLS-side oracles: the fetch of the existing policy list (`none` models
a 404, i.e. no list exists yet), and whether the PATCH and the fallback
PUT/create succeed. -/
structure TLSEnv where
  fetch : Except String (Option (List Policy))
  patchOK : Bool
  putOK : Bool
deriving Repr

/-- `putTLSAutomationPolicies` with its two-phase fallback: a rejected PATCH
triggers a best-effort DELETE followed by a PUT recreate. -/
def putTLSAutomationPolicies (tenv : TLSEnv) (ps : List Policy) :
    Except String Unit × List TLSWrite :=
  if tenv.patchOK then (.ok (), [.patchPolicies ps])
  else if tenv.putOK then (.ok (), [.patchPolicies ps, .deletePolicies, .putPolicies ps])
  else (.error ("caddy TLS policy update failed"),
        [.patchPolicies ps, .deletePolicies, .putPolicies ps])

/-- `createTLSAppWithPolicies`. -/
def createTLSAppWithPolicies (tenv : TLSEnv) (ps : List Policy) :
    Except String Unit × List TLSWrite :=
  if tenv.putOK then (.ok (), [.createTLSApp ps])
  else (.error ("caddy TLS app create failed"), [.createTLSApp ps])

/-- `syncDevwrapInternalTLSPolicy`: compute the subject set, fetch the policy
list; when a list exists the merged list is always written back; when none
exists, write only if the subject set is non-empty. -/
def syncDevwrapInternalTLSPolicy (tenv : TLSEnv) (apps : List (String × App)) :
    Except String Unit × List TLSWrite :=
  let subjects := subjectsOf apps
  match tenv.fetch with
  | .error e => (.error e, [])
  | .ok found =>
    let merged := mergeDevwrapInternalTLSPolicy (found.getD []) subjects
    match found with
    | some _ => putTLSAutomationPolicies tenv merged
    | none =>
      if subjects.isEmpty then (.ok (), [])
      else createTLSAppWithPolicies tenv merged

/-! ### Concrete fixtures used to exercise the model on closed inputs -/

/-- A live app owned by PID 100. -/
def appApi : App := ⟨"api", "api.localhost", 11000, 100, "t0"⟩

/-- A second live app owned by PID 100. -/
def appB : App := ⟨"b", "b.localhost", 11001, 100, "t0"⟩

/-- A stale app owned by dead PID 55. -/
def appOld : App := ⟨"old", "old.localhost", 11017, 55, "t0"⟩

/-- A lease whose recorded owner is PID 55, used for release-guard scenarios. -/
def appX : App := ⟨"x", "x.localhost", 11002, 55, "t0"⟩

/-- A benign environment: only PID 100 is alive, every port binds, the admin
API reports listener ports 80/443 and accepts every write. -/
def envW : Env :=
  ⟨fun i => i == 100, fun _ => true, fun _ => .ok (80, 443),
   .ok ⟨80, 443, false⟩, .error ("no pid file"), true, "t0"⟩

/-- Same as `envW` but every admin route write fails. -/
def envAdminFail : Env :=
  { envW with admin := fun _ => .error ("caddy admin query failed") }

/-- A parsed state document carrying a schema version this code base does not
define (2 instead of 1) and an unknown field. -/
def docV2 : StateDoc := ⟨2, "unmanaged", false, 8080, 8443, some [], ["future_field"]⟩

/-- A persisted state holding one stale lease (dead owner) and one live lease. -/
def docStaleLive : StateDoc :=
  ⟨1, "unmanaged", false, 80, 443, some [("old", appOld), ("b", appB)], []⟩

/-- A persisted state holding only the stale lease `old`. -/
def docStale : StateDoc :=
  ⟨1, "unmanaged", false, 80, 443, some [("old", appOld)], []⟩

/-- A persisted state holding only the lease `x` owned by PID 55. -/
def docX : StateDoc :=
  ⟨1, "unmanaged", false, 80, 443, some [("x", appX)], []⟩

/-- A foreign route (no owned marker) with arbitrary content. -/
def foreignRoute : Route :=
  .obj ⟨some ("external-1"), [["x.example"]], [("reverse_proxy", ["127.0.0.1:9"])], "misc"⟩

/-- A stale owned route left over from an earlier run. -/
def staleOwnedRoute : Route :=
  .obj ⟨some ("devwrap-old"), [["old.localhost"]], [("reverse_proxy", ["127.0.0.1:12345"])], ""⟩

/-- An existing route list: one foreign route, one stale owned route, one
non-object entry. -/
def exRoutes : List Route := [foreignRoute, staleOwnedRoute, .nonObj ("weird")]

/-- A single tracked app. -/
def appsW : List (String × App) := [("api", appApi)]

/-- The lease produced for a new app `api` with custom host `web.dev.test`
under `envW`. -/
def leaseWeb : Lease :=
  ⟨"api", "web.dev.test", 11000, "http://web.dev.test", "https://web.dev.test", true⟩

/-- The lease produced for `appApi` under `envW` (ports 80/443, trusted). -/
def leaseApi : Lease :=
  ⟨"api", "api.localhost", 11000, "http://api.localhost", "https://api.localhost", true⟩

/-- A TLS environment whose fetch finds an existing policy list. -/
def tenvFound : TLSEnv := ⟨.ok (some [.nonObj ("ext-policy")]), true, true⟩

/-- A TLS environment whose fetch reports that no policy list exists (404). -/
def tenvNone : TLSEnv := ⟨.ok none, true, true⟩

/-! ### Helper lemmas -/

theorem mergeKeep_eq_filter (l : List Route) :
    mergeKeep l = l.filter (fun r => !(routeIsDevwrap r)) := by
  induction l with
  | nil => rfl
  | cons r rest ih =>
    cases h : routeIsDevwrap r <;> simp [mergeKeep, h, ih, List.filter_cons]

theorem lookupApp_eq_some_of_mem {m : List (String × App)} {k : String} {v : App}
    (hnd : (m.map Prod.fst).Nodup) (hm : (k, v) ∈ m) : lookupApp m k = some v := by
  induction m with
  | nil => cases hm
  | cons p rest ih =>
    simp only [List.map_cons, List.nodup_cons] at hnd
    cases hm with
    | head => simp [lookupApp]
    | tail _ hmem =>
      have hne : p.1 ≠ k := by
        intro he
        exact hnd.1 (he ▸ List.mem_map_of_mem Prod.fst hmem)
      simp [lookupApp, hne, ih hnd.2 hmem]

theorem mem_of_lookupApp_eq_some {m : List (String × App)} {k : String} {v : App}
    (h : lookupApp m k = some v) : (k, v) ∈ m := by
  induction m with
  | nil => simp [lookupApp] at h
  | cons p rest ih =>
    obtain ⟨pk, pv⟩ := p
    by_cases hp : pk = k
    · simp [lookupApp, hp] at h
      subst hp
      subst h
      exact List.mem_cons_self _ _
    · simp [lookupApp, hp] at h
      exact List.mem_cons_of_mem _ (ih h)

theorem lookupApp_eq_none_iff {m : List (String × App)} {k : String} :
    lookupApp m k = none ↔ ∀ v, (k, v) ∉ m := by
  induction m with
  | nil => simp [lookupApp]
  | cons p rest ih =>
    obtain ⟨pk, pv⟩ := p
    by_cases hp : pk = k
    · subst hp
      constructor
      · intro h
        exact absurd h (by simp [lookupApp])
      · intro h
        exact absurd (List.mem_cons_self (pk, pv) rest) (h pv)
    · have hstep : lookupApp ((pk, pv) :: rest) k = lookupApp rest k := by
        simp [lookupApp, hp]
      rw [hstep, ih]
      constructor
      · intro h v hv
        rcases List.mem_cons.mp hv with he | hmem
        · injection he with h1 h2
          exact hp h1.symm
        · exact h v hmem
      · intro h v hv
        exact h v (List.mem_cons_of_mem _ hv)

theorem lookupApp_filter_none {m : List (String × App)} {k : String} {v : App}
    {pred : String × App → Bool}
    (hnd : (m.map Prod.fst).Nodup) (hm : (k, v) ∈ m) (hp : pred (k, v) = false) :
    lookupApp (m.filter pred) k = none := by
  rw [lookupApp_eq_none_iff]
  intro w hw
  have hpm : (k, w) ∈ m := List.mem_of_mem_filter hw
  have hpred : pred (k, w) = true := List.of_mem_filter hw
  have h1 := lookupApp_eq_some_of_mem hnd hm
  have h2 := lookupApp_eq_some_of_mem hnd hpm
  rw [h1] at h2
  have hv : v = w := by injection h2
  rw [← hv, hp] at hpred
  cases hpred

theorem lookupApp_upsert_self (m : List (String × App)) (k : String) (v : App) :
    lookupApp (upsert m k v) k = some v := by
  induction m with
  | nil => simp [upsert, lookupApp]
  | cons p rest ih =>
    by_cases hp : p.1 = k <;> simp [upsert, lookupApp, hp, ih]

theorem lookupApp_upsert_ne (m : List (String × App)) (k : String) (v : App)
    {n : String} (h : n ≠ k) : lookupApp (upsert m k v) n = lookupApp m n := by
  have hkn : ¬(k = n) := fun he => h he.symm
  induction m with
  | nil => simp [upsert, lookupApp, hkn]
  | cons p rest ih =>
    by_cases hp : p.1 = k
    · by_cases hn : p.1 = n
      · exact absurd (by rw [← hp, hn]) hkn
      · simp [upsert, lookupApp, hp, hkn, hn]
    · by_cases hn : p.1 = n <;> simp [upsert, lookupApp, hp, hn, ih, h]

theorem mem_upsert {m : List (String × App)} {k : String} {v : App} {p : String × App}
    (h : p ∈ upsert m k v) : p = (k, v) ∨ p ∈ m := by
  induction m with
  | nil => simp [upsert] at h; simp [h]
  | cons q rest ih =>
    by_cases hq : q.1 = k
    · simp [upsert, hq] at h
      rcases h with h | h
      · left; simp [h]
      · right; exact List.mem_cons_of_mem q h
    · simp [upsert, hq] at h
      rcases h with h | h
      · right; simp [h]
      · rcases ih h with h2 | h2
        · left; exact h2
        · right; exact List.mem_cons_of_mem q h2

theorem upsert_eq_self {m : List (String × App)} {k : String} {v : App}
    (h : lookupApp m k = some v) : upsert m k v = m := by
  induction m with
  | nil => simp [lookupApp] at h
  | cons q rest ih =>
    obtain ⟨qk, qv⟩ := q
    by_cases hq : qk = k
    · have h2 : some qv = some v := by
        rw [← h]
        simp [lookupApp, hq]
      have hv : qv = v := by injection h2
      subst hq
      subst hv
      simp [upsert]
    · have h2 : lookupApp rest k = some v := by
        rw [← h]
        simp [lookupApp, hq]
      simp [upsert, hq, ih h2]

theorem lookupApp_eraseKey (m : List (String × App)) (k : String) :
    lookupApp (eraseKey m k) k = none := by
  rw [lookupApp_eq_none_iff]
  intro v hv
  have := List.of_mem_filter hv
  simp at this

theorem resolveApp_pid_now {env : Env} {apps : List (String × App)} {n : String}
    {P : Int} {a : App} (h : resolveApp env apps n P = .ok a) :
    a.pid = P ∧ a.startedAt = env.now := by
  unfold resolveApp at h
  split at h
  · injection h with h; rw [← h]
    exact ⟨rfl, rfl⟩
  · split at h
    · injection h with h; rw [← h]
      exact ⟨rfl, rfl⟩
    · cases h

theorem load_save (s : daemonState) (h : s.caddySource = "unmanaged") :
    loadLocalState (saveLocalState s) = .ok s := by
  cases s with
  | mk v cs r hp hs apps =>
    simp only at h
    subst h
    simp [saveLocalState, encodeDoc, loadLocalState, decodeDoc]

/-! #### Port-allocator scan lemmas -/

theorem allocFrom_ok_spec (env : Env) (used : List Nat) :
    ∀ fuel port p, allocFrom env used port fuel = .ok p →
      port ≤ p ∧ p < port + fuel ∧ p ∉ used ∧ env.bindable p = true ∧
      ∀ q, port ≤ q → q < p → (q ∈ used ∨ env.bindable q = false) := by
  intro fuel
  induction fuel with
  | zero => intro port p h; simp [allocFrom] at h
  | succ f ih =>
    intro port p h
    simp only [allocFrom] at h
    split at h
    · rename_i hu
      obtain ⟨h1, h2, h3, h4, h5⟩ := ih (port + 1) p h
      refine ⟨by omega, by omega, h3, h4, ?_⟩
      intro q hq hqp
      rcases Nat.eq_or_lt_of_le hq with he | hlt
      · exact Or.inl (he ▸ hu)
      · exact h5 q hlt hqp
    · split at h
      · rename_i hu hb
        injection h with h
        subst h
        exact ⟨Nat.le_refl _, by omega, hu, hb, fun q hq hqp => absurd hqp (by omega)⟩
      · rename_i hu hb
        obtain ⟨h1, h2, h3, h4, h5⟩ := ih (port + 1) p h
        refine ⟨by omega, by omega, h3, h4, ?_⟩
        intro q hq hqp
        rcases Nat.eq_or_lt_of_le hq with he | hlt
        · exact Or.inr (he ▸ by simpa using hb)
        · exact h5 q hlt hqp

theorem allocFrom_err_iff (env : Env) (used : List Nat) :
    ∀ fuel port, (∃ e, allocFrom env used port fuel = .error e) ↔
      ∀ q, port ≤ q → q < port + fuel → (q ∈ used ∨ env.bindable q = false) := by
  intro fuel
  induction fuel with
  | zero =>
    intro port
    constructor
    · intro _ q hq hlt; omega
    · intro _; exact ⟨_, rfl⟩
  | succ f ih =>
    intro port
    simp only [allocFrom]
    split
    · rename_i hu
      rw [ih (port + 1)]
      constructor
      · intro h q hq hlt
        rcases Nat.eq_or_lt_of_le hq with he | hgt
        · exact Or.inl (he ▸ hu)
        · exact h q hgt (by omega)
      · intro h q hq hlt
        exact h q (by omega) (by omega)
    · split
      · rename_i hu hb
        constructor
        · intro ⟨e, he⟩; cases he
        · intro h
          rcases h port (Nat.le_refl _) (by omega) with hc | hc
          · exact absurd hc hu
          · rw [hb] at hc; cases hc
      · rename_i hu hb
        rw [ih (port + 1)]
        constructor
        · intro h q hq hlt
          rcases Nat.eq_or_lt_of_le hq with he | hgt
          · exact Or.inr (he ▸ by simpa using hb)
          · exact h q hgt (by omega)
        · intro h q hq hlt
          exact h q (by omega) (by omega)

theorem lookupApp_isSome_of_mem_keys {m : List (String × App)} {k : String}
    (h : k ∈ m.map Prod.fst) : (lookupApp m k).isSome := by
  induction m with
  | nil => simp at h
  | cons p rest ih =>
    rw [List.map_cons] at h
    rcases List.mem_cons.mp h with he | hm
    · have hp : p.1 = k := he.symm
      simp [lookupApp, hp]
    · by_cases hp : p.1 = k
      · simp [lookupApp, hp]
      · simp only [lookupApp, if_neg hp]
        exact ih hm

theorem filterMap_lookup_length (A : List (String × App)) :
    ∀ ns : List String, (∀ n ∈ ns, n ∈ A.map Prod.fst) →
      (ns.filterMap (fun n => (lookupApp A n).map mkAppRoute)).length = ns.length := by
  intro ns
  induction ns with
  | nil => simp
  | cons n rest ih =>
    intro h
    have hn := h n (List.mem_cons_self _ _)
    obtain ⟨v, hv⟩ := Option.isSome_iff_exists.mp (lookupApp_isSome_of_mem_keys hn)
    simp [List.filterMap_cons, hv, ih (fun a ha => h a (List.mem_cons_of_mem _ ha))]

theorem strStartsWith_append (p s : String) : strStartsWith p (p ++ s) = true := by
  rw [strStartsWith, String.data_append, List.isPrefixOf_iff_prefix]
  exact List.prefix_append _ _

theorem string_append_cancel {c x y : String} (h : c ++ x = c ++ y) : x = y := by
  have hd : (c ++ x).data = (c ++ y).data := congrArg String.data h
  rw [String.data_append, String.data_append] at hd
  have hxy := List.append_cancel_left hd
  cases x with
  | mk xd =>
    cases y with
    | mk yd =>
      simp only at hxy
      rw [hxy]

theorem mkAppRoute_mem_makeDevwrapRoutes {apps : List (String × App)} {p : String × App}
    (hnd : (apps.map Prod.fst).Nodup) (hp : p ∈ apps) :
    mkAppRoute p.2 ∈ makeDevwrapRoutes apps := by
  unfold makeDevwrapRoutes
  rw [List.mem_filterMap]
  refine ⟨p.1, ?_, ?_⟩
  · have hmem : p.1 ∈ apps.map Prod.fst := List.mem_map_of_mem _ hp
    exact ((List.perm_insertionSort _ _).mem_iff).mpr hmem
  · have hpair : (p.1, p.2) ∈ apps := by
      cases p
      exact hp
    rw [lookupApp_eq_some_of_mem hnd hpair]
    rfl

/-- Every route built by `makeDevwrapRoutes` arises from a key of the apps map
via `lookupApp`. -/
theorem makeDevwrapRoutes_mem_inv {apps : List (String × App)} {o : RouteObj}
    (ho : o ∈ makeDevwrapRoutes apps) :
    ∃ k v, lookupApp apps k = some v ∧ o = mkAppRoute v := by
  unfold makeDevwrapRoutes at ho
  rw [List.mem_filterMap] at ho
  obtain ⟨k, _, hk⟩ := ho
  rw [Option.map_eq_some'] at hk
  obtain ⟨v, hv, hmk⟩ := hk
  exact ⟨k, v, hv, hmk.symm⟩

/-- If the apps map records no entry for key `n` and app names agree with
their keys, then no freshly computed route carries the id `devwrap-<n>`. -/
theorem makeDevwrapRoutes_id_ne {A : List (String × App)} {n : String}
    (hnames : ∀ p ∈ A, (p : String × App).2.name = p.1)
    (hnone : lookupApp A n = none) :
    ∀ o ∈ makeDevwrapRoutes A, o.id ≠ some ("devwrap-" ++ n) := by
  intro o ho heq
  obtain ⟨k, v, hv, hmk⟩ := makeDevwrapRoutes_mem_inv ho
  have hvk : v.name = k := hnames (k, v) (mem_of_lookupApp_eq_some hv)
  rw [hmk] at heq
  simp only [mkAppRoute, Option.some.injEq] at heq
  have hkn : k = n := string_append_cancel (hvk ▸ heq)
  rw [hkn, hnone] at hv
  cases hv

theorem fileApps_save (s : daemonState) : fileApps (saveLocalState s) = s.apps := rfl

/-- Inversion of a successful `requestLeaseDirect`: the load, the
existing-or-new resolution and the admin write all succeeded, and the result
is exactly the lease, saved state and pushed app set built from them. -/
theorem requestLeaseDirect_ok {env : Env} {file : FileRead} {n : String} {P : Int}
    {l : Lease} (h : (requestLeaseDirect env file n P).res = .ok l) :
    ∃ st app hp hs, loadLocalState file = .ok st
      ∧ resolveApp env (evictApps env st.apps) n P = .ok app
      ∧ env.admin (upsert (evictApps env st.apps) n app) = .ok (hp, hs)
      ∧ requestLeaseDirect env file n P =
          ⟨.ok (leaseFromAppAndPorts env app hp hs),
           saveLocalState ⟨1, "unmanaged", hp == 80 && hs == 443, hp, hs,
             upsert (evictApps env st.apps) n app⟩,
           some (upsert (evictApps env st.apps) n app)⟩ := by
  cases hld : loadLocalState file with
  | error e =>
    simp only [requestLeaseDirect, hld] at h
    simp at h
  | ok st =>
    cases hres : resolveApp env (evictApps env st.apps) n P with
    | error e =>
      simp only [requestLeaseDirect, hld, hres] at h
      simp at h
    | ok app =>
      cases hadmin : env.admin (upsert (evictApps env st.apps) n app) with
      | error e =>
        simp only [requestLeaseDirect, hld, hres, hadmin] at h
        simp at h
      | ok pr =>
        obtain ⟨hp, hs⟩ := pr
        refine ⟨st, app, hp, hs, rfl, hres, hadmin, ?_⟩
        simp only [requestLeaseDirect, hld, hres, hadmin]

/-- A successfully resolved app entry is named after its key. -/
theorem resolveApp_name {env : Env} {apps : List (String × App)} {n : String}
    {P : Int} {a : App} (hnames : ∀ p ∈ apps, (p : String × App).2.name = p.1)
    (h : resolveApp env apps n P = .ok a) : a.name = n := by
  cases hl : lookupApp apps n with
  | some v =>
    simp only [resolveApp, hl] at h
    have hv : v.name = n := hnames (n, v) (mem_of_lookupApp_eq_some hl)
    injection h with h
    rw [← h]
    exact hv
  | none =>
    cases halloc : allocatePortFromApps env apps with
    | ok port =>
      simp only [resolveApp, hl, halloc] at h
      injection h with h
      rw [← h]
    | error e =>
      simp only [resolveApp, hl, halloc] at h
      simp at h

/-! ### Claim theorems -/

/-- C4 counterexample: the claim quantifies over every `Q ≠ P`, but a
non-positive `Q` bypasses the owner guard: releasing lease `x` (recorded
owner PID 55) with `pid = 0` deletes it instead of leaving it untouched. -/
theorem C4_release_guard_counterexample :
    appX.pid = 55 ∧ (0 : Int) ≠ 55
    ∧ lookupApp (fileApps (releaseLeaseCore envW (.doc docX) "x" 0).file) "x" = none := by
  decide

/-- C4 (amended): for every state containing a lease `x` recorded as owned by
`P`, a release of `x` with a positive PID `Q ≠ P` is a silent no-op: the
persisted state file is untouched, the route reconciler is not invoked, and
no error is produced. -/
theorem C4_release_owner_guard (env : Env) (file : FileRead) (st : daemonState)
    (n : String) (q : Int) (a : App)
    (hld : loadLocalState file = .ok st)
    (hlook : lookupApp st.apps n = some a)
    (hq : 0 < q) (hne : a.pid ≠ q) :
    releaseLeaseCore env file n q = ⟨.ok (), file, none⟩ := by
  simp [releaseLeaseCore, hld, hlook, hq, hne]

/-- C4 witness: releasing `x` (owner PID 55) with PID 77 concretely leaves
everything untouched. -/
theorem C4_release_owner_guard_witness :
    releaseLeaseCore envW (.doc docX) "x" 77 = ⟨.ok (), .doc docX, none⟩ :=
  C4_release_owner_guard envW (.doc docX) (decodeDoc docX) "x" 77 appX
    (by decide) (by decide) (by decide) (by decide)

/-- C10: releasing an existing lease with a non-positive PID deletes it
unconditionally (the owner guard only applies to positive PIDs): the deletion
is pushed to the route reconciler and persisted, and the lease is gone from
the saved state. -/
theorem C10_release_nonpositive_pid (env : Env) (file : FileRead) (st : daemonState)
    (n : String) (q : Int) (a : App) (pr : Nat × Nat)
    (hld : loadLocalState file = .ok st)
    (hlook : lookupApp st.apps n = some a)
    (hq : q ≤ 0)
    (hadmin : env.admin (eraseKey st.apps n) = .ok pr) :
    releaseLeaseCore env file n q
      = ⟨.ok (), saveLocalState { st with apps := eraseKey st.apps n },
         some (eraseKey st.apps n)⟩
    ∧ lookupApp (fileApps (releaseLeaseCore env file n q).file) n = none := by
  have hguard : ¬(q > 0 ∧ a.pid ≠ q) := by
    intro hc
    omega
  have heq : releaseLeaseCore env file n q
      = ⟨.ok (), saveLocalState { st with apps := eraseKey st.apps n },
         some (eraseKey st.apps n)⟩ := by
    simp only [releaseLeaseCore, hld, hlook, if_neg hguard, hadmin]
  refine ⟨heq, ?_⟩
  rw [heq]
  simp only [fileApps_save]
  exact lookupApp_eraseKey st.apps n

/-- C10 witness: releasing `x` (owner PID 55) with PID 0 concretely deletes
the lease from the persisted state. -/
theorem C10_release_nonpositive_pid_witness :
    releaseLeaseCore envW (.doc docX) "x" 0
      = ⟨.ok (), saveLocalState { decodeDoc docX with apps := eraseKey (decodeDoc docX).apps "x" },
         some (eraseKey (decodeDoc docX).apps "x")⟩
    ∧ lookupApp (fileApps (releaseLeaseCore envW (.doc docX) "x" 0).file) "x" = none :=
  C10_release_nonpositive_pid envW (.doc docX) (decodeDoc docX) "x" 0 appX (80, 443)
    (by decide) (by decide) (by decide) (by decide)

/-- C8: a failed acquisition leaves the persisted state file exactly as it
was: every error path of `requestLeaseDirect` (load failure, port
exhaustion, admin write failure) returns before the save. -/
theorem C8_failed_acquire_leaves_state (env : Env) (file : FileRead) (n : String)
    (P : Int) (e : String)
    (h : (requestLeaseDirect env file n P).res = .error e) :
    (requestLeaseDirect env file n P).file = file := by
  cases hld : loadLocalState file with
  | error e2 => simp only [requestLeaseDirect, hld]
  | ok st =>
    cases hres : resolveApp env (evictApps env st.apps) n P with
    | error e2 => simp only [requestLeaseDirect, hld, hres]
    | ok app =>
      cases hadmin : env.admin (upsert (evictApps env st.apps) n app) with
      | error e2 => simp only [requestLeaseDirect, hld, hres, hadmin]
      | ok pr =>
        obtain ⟨hp, hs⟩ := pr
        simp only [requestLeaseDirect, hld, hres, hadmin] at h
        simp at h

/-- C2 counterexample: a Release call does not evict stale leases.  With a
persisted state holding the stale lease `old` (owner PID 55, not alive) and
the live lease `b`, releasing `b` succeeds but leaves `old` both in the
persisted state and in the app set pushed to the route reconciler —
contradicting the claim that any subsequent Release call removes it. -/
theorem C2_release_no_eviction_counterexample :
    processAlive envW appOld.pid = false
    ∧ lookupApp (fileApps (releaseLeaseCore envW (.doc docStaleLive) "b" 100).file) "old"
        = some appOld
    ∧ (releaseLeaseCore envW (.doc docStaleLive) "b" 100).pushed = some [("old", appOld)]
    ∧ (releaseLeaseCore envW (.doc docStaleLive) "b" 100).res = .ok () := by
  decide

/-- C2 (amended): a lease whose recorded owner PID is not alive is removed
from the persisted state and from the reconciled route set by any subsequent
Status call or (successful) Acquire call for a different name; Release
performs no such eviction. -/
theorem C2_eviction_status_acquire (env : Env) (file : FileRead) (st : daemonState)
    (n x : String) (a : App) (P : Int) (l : Lease) (info : CaddyInfo)
    (hld : loadLocalState file = .ok st)
    (hnd : (st.apps.map Prod.fst).Nodup)
    (hnames : ∀ p ∈ st.apps, (p : String × App).2.name = p.1)
    (hmem : (n, a) ∈ st.apps)
    (hdead : processAlive env a.pid = false)
    (hinfo : env.caddyInfo = .ok info)
    (hne : n ≠ x)
    (hacq : (requestLeaseDirect env file x P).res = .ok l) :
    (lookupApp (fileApps (localStatusFromFiles env file).file) n = none
      ∧ ∃ A, (localStatusFromFiles env file).pushed = some A ∧ lookupApp A n = none
          ∧ ∀ o ∈ makeDevwrapRoutes A, o.id ≠ some ("devwrap-" ++ n))
    ∧ (lookupApp (fileApps (requestLeaseDirect env file x P).file) n = none
      ∧ ∃ A, (requestLeaseDirect env file x P).pushed = some A ∧ lookupApp A n = none
          ∧ ∀ o ∈ makeDevwrapRoutes A, o.id ≠ some ("devwrap-" ++ n)) := by
  have hevict : lookupApp (evictApps env st.apps) n = none :=
    lookupApp_filter_none hnd hmem hdead
  have hnamesEvict : ∀ p ∈ evictApps env st.apps, (p : String × App).2.name = p.1 :=
    fun p hp => hnames p (List.mem_of_mem_filter hp)
  constructor
  · -- Status part
    have hchanged : st.apps.any (fun p => !(processAlive env p.2.pid)) = true := by
      rw [List.any_eq_true]
      exact ⟨(n, a), hmem, by simp [hdead]⟩
    have hfile2 : (localStatusFromFiles env file).file
        = saveLocalState { st with apps := evictApps env st.apps } := by
      simp [localStatusFromFiles, hinfo, hld, hchanged]
    have hpush2 : (localStatusFromFiles env file).pushed = some (evictApps env st.apps) := by
      simp [localStatusFromFiles, hinfo, hld, hchanged]
    refine ⟨?_, evictApps env st.apps, hpush2, hevict,
      makeDevwrapRoutes_id_ne hnamesEvict hevict⟩
    rw [hfile2, fileApps_save]
    exact hevict
  · -- Acquire part
    obtain ⟨st2, app, hp, hs, hld2, hres, hadmin, heq⟩ := requestLeaseDirect_ok hacq
    have hst : st = st2 := by
      rw [hld] at hld2
      injection hld2
    subst hst
    have hlookA : lookupApp (upsert (evictApps env st.apps) x app) n = none := by
      rw [lookupApp_upsert_ne _ _ _ hne]
      exact hevict
    have hnamesA : ∀ p ∈ upsert (evictApps env st.apps) x app,
        (p : String × App).2.name = p.1 := by
      intro p hpm
      rcases mem_upsert hpm with he | hm
      · rw [he]
        exact resolveApp_name hnamesEvict hres
      · exact hnamesEvict p hm
    refine ⟨?_, upsert (evictApps env st.apps) x app, ?_, hlookA,
      makeDevwrapRoutes_id_ne hnamesA hlookA⟩
    · rw [heq]
      exact hlookA
    · rw [heq]

/-- C2 witness: with the stale lease `old` persisted, a concrete Status call
and a concrete Acquire of `api` both evict it from the saved state and from
the reconciled routes. -/
theorem C2_eviction_status_acquire_witness :
    (lookupApp (fileApps (localStatusFromFiles envW (.doc docStale)).file) "old" = none
      ∧ ∃ A, (localStatusFromFiles envW (.doc docStale)).pushed = some A
          ∧ lookupApp A "old" = none
          ∧ ∀ o ∈ makeDevwrapRoutes A, o.id ≠ some ("devwrap-" ++ "old"))
    ∧ (lookupApp (fileApps (requestLeaseDirect envW (.doc docStale) "api" 100).file) "old"
        = none
      ∧ ∃ A, (requestLeaseDirect envW (.doc docStale) "api" 100).pushed = some A
          ∧ lookupApp A "old" = none
          ∧ ∀ o ∈ makeDevwrapRoutes A, o.id ≠ some ("devwrap-" ++ "old")) :=
  C2_eviction_status_acquire envW (.doc docStale) (decodeDoc docStale) "old" "api"
    appOld 100 leaseApi ⟨80, 443, false⟩ (by decide) (by decide) (by decide)
    (by decide) (by decide) (by decide) (by decide) (by decide)

/-- C3: re-acquiring the same name with the same (alive) PID returns a lease
with the same port and host, and leaves the persisted app count unchanged
(the entry is updated in place; no new port is allocated). -/
theorem C3_idempotent_reacquire (env : Env) (file : FileRead) (x : String) (P : Int)
    (l1 : Lease)
    (h1 : (requestLeaseDirect env file x P).res = .ok l1)
    (halive : processAlive env P = true) :
    (∃ l2, (requestLeaseDirect env (requestLeaseDirect env file x P).file x P).res = .ok l2
      ∧ l2.port = l1.port ∧ l2.host = l1.host)
    ∧ (fileApps (requestLeaseDirect env (requestLeaseDirect env file x P).file x P).file).length
      = (fileApps (requestLeaseDirect env file x P).file).length := by
  obtain ⟨st, app, hp, hs, hld, hres, hadmin, heq⟩ := requestLeaseDirect_ok h1
  obtain ⟨hpid, hnow⟩ := resolveApp_pid_now hres
  have hl1 : leaseFromAppAndPorts env app hp hs = l1 := by
    have h2 := h1
    rw [heq] at h2
    simpa using h2
  have happ2 : ({ app with pid := P, startedAt := env.now } : App) = app := by
    rw [← hpid, ← hnow]
  have hres2 : resolveApp env (upsert (evictApps env st.apps) x app) x P = .ok app := by
    simp only [resolveApp, lookupApp_upsert_self, happ2]
  have hAalive : ∀ p ∈ upsert (evictApps env st.apps) x app,
      processAlive env (p : String × App).2.pid = true := by
    intro p hpm
    rcases mem_upsert hpm with he | hm
    · rw [he]
      show processAlive env app.pid = true
      rw [hpid]
      exact halive
    · have hm2 := (List.mem_filter.mp hm).2
      simpa using hm2
  have hevict2 : evictApps env (upsert (evictApps env st.apps) x app)
      = upsert (evictApps env st.apps) x app :=
    List.filter_eq_self.mpr hAalive
  have hld2 : loadLocalState (saveLocalState
      (⟨1, "unmanaged", hp == 80 && hs == 443, hp, hs,
        upsert (evictApps env st.apps) x app⟩ : daemonState))
      = .ok ⟨1, "unmanaged", hp == 80 && hs == 443, hp, hs,
        upsert (evictApps env st.apps) x app⟩ :=
    load_save _ rfl
  have heq2 : requestLeaseDirect env (saveLocalState
      (⟨1, "unmanaged", hp == 80 && hs == 443, hp, hs,
        upsert (evictApps env st.apps) x app⟩ : daemonState)) x P
      = ⟨.ok (leaseFromAppAndPorts env app hp hs),
         saveLocalState ⟨1, "unmanaged", hp == 80 && hs == 443, hp, hs,
           upsert (evictApps env st.apps) x app⟩,
         some (upsert (evictApps env st.apps) x app)⟩ := by
    simp only [requestLeaseDirect, hld2, hevict2, hres2,
      upsert_eq_self (lookupApp_upsert_self (evictApps env st.apps) x app), hadmin]
  have hfile1 : (requestLeaseDirect env file x P).file
      = saveLocalState ⟨1, "unmanaged", hp == 80 && hs == 443, hp, hs,
          upsert (evictApps env st.apps) x app⟩ := by
    rw [heq]
  constructor
  · refine ⟨l1, ?_, rfl, rfl⟩
    rw [hfile1, heq2]
    exact congrArg Except.ok hl1
  · rw [hfile1, heq2]

/-- C3 witness: acquiring `api` twice with PID 100 from an empty state yields
the same lease data both times and an unchanged app count. -/
theorem C3_idempotent_reacquire_witness :
    (requestLeaseDirect envW .missing "api" 100).res = .ok leaseApi
    ∧ processAlive envW 100 = true
    ∧ ((∃ l2, (requestLeaseDirect envW (requestLeaseDirect envW .missing "api" 100).file
          "api" 100).res = .ok l2 ∧ l2.port = leaseApi.port ∧ l2.host = leaseApi.host)
      ∧ (fileApps (requestLeaseDirect envW (requestLeaseDirect envW .missing "api" 100).file
          "api" 100).file).length
        = (fileApps (requestLeaseDirect envW .missing "api" 100).file).length) :=
  ⟨by decide, by decide,
   C3_idempotent_reacquire envW .missing "api" 100 leaseApi (by decide) (by decide)⟩

/-- C8 witness: with the admin API failing, a concrete acquisition fails and
the (missing) state file is unchanged. -/
theorem C8_failed_acquire_leaves_state_witness :
    (requestLeaseDirect envAdminFail .missing "api" 100).res
      = .error ("caddy admin query failed")
    ∧ (requestLeaseDirect envAdminFail .missing "api" 100).file = .missing :=
  ⟨by decide, C8_failed_acquire_leaves_state envAdminFail .missing "api" 100
    ("caddy admin query failed") (by decide)⟩

/-- C1: for every existing route list and every tracked-apps map (with unique
keys), the reconciler's merged list equals the foreign routes of the existing
list, kept verbatim and in their original relative order (every route carrying
the owned `devwrap-` marker is dropped), followed by the freshly computed owned
routes; there is exactly one fresh route per app, each fresh route carries the
owned marker, the fresh routes are enumerated in name-sorted order, and each
one matches exactly the app's host and forwards to the single upstream
`127.0.0.1:<port>`. -/
theorem C1_route_reconciler (existing : List Route) (apps : List (String × App))
    (hnd : (apps.map Prod.fst).Nodup) :
    mergeExternalRoutes existing (makeDevwrapRoutes apps)
      = existing.filter (fun r => !(routeIsDevwrap r)) ++
        (makeDevwrapRoutes apps).map Route.obj
    ∧ (makeDevwrapRoutes apps).length = apps.length
    ∧ (∀ p ∈ apps, mkAppRoute (p : String × App).2 ∈ makeDevwrapRoutes apps)
    ∧ (∀ o ∈ makeDevwrapRoutes apps, routeIsDevwrap (Route.obj o) = true)
    ∧ (∃ ns, ns.Perm (apps.map Prod.fst) ∧ List.Sorted (fun s t => s ≤ t) ns ∧
        makeDevwrapRoutes apps = ns.filterMap (fun n => (lookupApp apps n).map mkAppRoute))
    ∧ (∀ p ∈ apps, mkAppRoute (p : String × App).2 =
        ⟨some ("devwrap-" ++ p.2.name), [[p.2.host]],
         [("reverse_proxy", ["127.0.0.1:" ++ toString p.2.port])], ""⟩) := by
  refine ⟨?_, ?_, ?_, ?_, ?_, ?_⟩
  · rw [mergeExternalRoutes, mergeKeep_eq_filter]
  · have hlen : ((apps.map Prod.fst).insertionSort (fun s t => s ≤ t)).length
        = (apps.map Prod.fst).length := (List.perm_insertionSort _ _).length_eq
    rw [makeDevwrapRoutes, filterMap_lookup_length, hlen, List.length_map]
    intro n hn
    exact ((List.perm_insertionSort _ _).mem_iff).mp hn
  · intro p hp
    exact mkAppRoute_mem_makeDevwrapRoutes hnd hp
  · intro o ho
    obtain ⟨k, v, _, hmk⟩ := makeDevwrapRoutes_mem_inv ho
    rw [hmk]
    simp only [routeIsDevwrap, mkAppRoute, Option.getD_some]
    exact strStartsWith_append _ _
  · exact ⟨(apps.map Prod.fst).insertionSort (fun s t => s ≤ t),
      List.perm_insertionSort _ _, List.sorted_insertionSort _ _, rfl⟩
  · intro p _
    rfl

/-- C1 witness: the reconciler applied to a concrete route list holding one
foreign route, one stale owned route and one non-object entry, with one
tracked app. -/
theorem C1_route_reconciler_witness :
    ((appsW.map Prod.fst).Nodup)
    ∧ mergeExternalRoutes exRoutes (makeDevwrapRoutes appsW)
      = exRoutes.filter (fun r => !(routeIsDevwrap r)) ++
        (makeDevwrapRoutes appsW).map Route.obj
    ∧ (makeDevwrapRoutes appsW).length = appsW.length :=
  ⟨by decide, (C1_route_reconciler exRoutes appsW (by decide)).1,
   (C1_route_reconciler exRoutes appsW (by decide)).2.1⟩

/-- C5: port allocation scans ascending over 11000..19999, skips every
recorded port, probes a loopback bind on the remaining candidates and returns
the first bindable one; it fails exactly when every candidate in range is
recorded or unbindable; with an empty state and all ports bindable it returns
11000. -/
theorem C5_port_allocation (env : Env) (apps : List (String × App)) :
    (∀ p, allocatePortFromApps env apps = .ok p →
      11000 ≤ p ∧ p ≤ 19999 ∧ p ∉ usedPorts apps ∧ env.bindable p = true ∧
      ∀ q, 11000 ≤ q → q < p → (q ∈ usedPorts apps ∨ env.bindable q = false))
    ∧ ((∃ e, allocatePortFromApps env apps = .error e) ↔
      ∀ q, 11000 ≤ q → q ≤ 19999 → (q ∈ usedPorts apps ∨ env.bindable q = false))
    ∧ (apps = [] → (∀ q, env.bindable q = true) →
      allocatePortFromApps env apps = .ok 11000) := by
  refine ⟨?_, ?_, ?_⟩
  · intro p h
    obtain ⟨h1, h2, h3, h4, h5⟩ := allocFrom_ok_spec env (usedPorts apps) 9000 11000 p h
    exact ⟨h1, by omega, h3, h4, h5⟩
  · rw [allocatePortFromApps, allocFrom_err_iff]
    constructor
    · intro h q hq hle
      exact h q hq (by omega)
    · intro h q hq hlt
      exact h q hq (by omega)
  · intro happs hbind
    have hnotall : ¬(∀ q, 11000 ≤ q → q ≤ 19999 →
        (q ∈ usedPorts apps ∨ env.bindable q = false)) := by
      intro h
      rcases h 11000 (by omega) (by omega) with hc | hc
      · rw [happs] at hc
        simp [usedPorts] at hc
      · rw [hbind 11000] at hc
        cases hc
    cases halloc : allocatePortFromApps env apps with
    | error e =>
      have hall := (allocFrom_err_iff env (usedPorts apps) 9000 11000).mp ⟨e, halloc⟩
      exact absurd (fun q hq hle => hall q hq (by omega)) hnotall
    | ok p =>
      obtain ⟨h1, _, _, _, h5⟩ :=
        allocFrom_ok_spec env (usedPorts apps) 9000 11000 p halloc
      have hp : p = 11000 := by
        by_contra hne
        rcases h5 11000 (by omega) (by omega) with hc | hc
        · rw [happs] at hc
          simp [usedPorts] at hc
        · rw [hbind 11000] at hc
          cases hc
      rw [hp]

/-- C5 witness: in an environment where every port binds, the first
allocation from an empty state returns 11000. -/
theorem C5_port_allocation_witness :
    allocatePortFromApps envW [] = .ok 11000 :=
  (C5_port_allocation envW []).2.2 rfl (fun _ => rfl)

/-- Inversion of a successful host-threaded acquisition that creates a new
entry: the resulting lease carries exactly the resolved host. -/
theorem requestLeaseHost_new_host {env : Env} {file : FileRead} {st : daemonState}
    {n host : String} {P : Int} {l : Lease}
    (hld : loadLocalState file = .ok st)
    (hnew : lookupApp (evictApps env st.apps) n = none)
    (h : (requestLeaseHost env file n host P).res = .ok l) :
    l.host = host := by
  cases halloc : allocatePortFromApps env (evictApps env st.apps) with
  | error e =>
    simp only [requestLeaseHost, hld, hnew, halloc] at h
    simp at h
  | ok port =>
    cases hadmin : env.admin
        (upsert (evictApps env st.apps) n ⟨n, host, port, P, env.now⟩) with
    | error e =>
      simp only [requestLeaseHost, hld, hnew, halloc, hadmin] at h
      simp at h
    | ok pr =>
      obtain ⟨hp, hs⟩ := pr
      simp only [requestLeaseHost, hld, hnew, halloc, hadmin] at h
      injection h with h
      rw [← h]
      rfl

/-- C6: in the acquisition pipeline the lease host is the resolved host —
the validated custom host when one was supplied, `<name>.localhost`
otherwise — and a custom host that fails validation aborts the run before
any state access or port allocation, leaving the state file untouched and
invoking no reconciliation. -/
theorem C6_host_resolution (env : Env) (file : FileRead) (st : daemonState)
    (n c : String) (P : Int) :
    (∀ h l, loadLocalState file = .ok st →
      lookupApp (evictApps env st.apps) n = none →
      hostForApp n c = .ok h →
      (runAppAcquire env file n c P).res = .ok l → l.host = h)
    ∧ hostForApp n "" = .ok (n ++ ".localhost")
    ∧ (∀ e, validateName n = .ok () → hostForApp n c = .error e →
        runAppAcquire env file n c P = ⟨.error e, file, none⟩) := by
  refine ⟨?_, ?_, ?_⟩
  · intro h l hld hnew hhost hres
    cases hvn : validateName n with
    | error e =>
      simp only [runAppAcquire, hvn] at hres
      simp at hres
    | ok u =>
      cases u
      simp only [runAppAcquire, hvn, hhost] at hres
      exact requestLeaseHost_new_host hld hnew hres
  · simp [hostForApp]
  · intro e hvn hhe
    simp only [runAppAcquire, hvn, hhe]

/-- C6 witness: a validated custom host `web.dev.test` ends up verbatim in
the lease; the invalid custom host `api-.dev.test` (trailing dash in a
label) is rejected with no state access and no allocation. -/
theorem C6_host_resolution_witness :
    ((runAppAcquire envW .missing "api" "web.dev.test" 100).res = .ok leaseWeb
      ∧ leaseWeb.host = "web.dev.test")
    ∧ normalizeHost "api-.dev.test" = .error ("host labels cannot start or end with a dash")
    ∧ runAppAcquire envW .missing "api" "api-.dev.test" 100
        = ⟨.error ("host labels cannot start or end with a dash"), .missing, none⟩ :=
  ⟨⟨by decide,
    (C6_host_resolution envW .missing defaultDaemonState "api" "web.dev.test" 100).1
      "web.dev.test" leaseWeb (by decide) (by decide) (by decide) (by decide)⟩,
   by decide,
   (C6_host_resolution envW .missing defaultDaemonState "api" "api-.dev.test" 100).2.2
     ("host labels cannot start or end with a dash") (by decide) (by decide)⟩

/-- C7 counterexample: loading a parsed state document that carries the
unsupported schema version 2 surfaces no error — the loader returns the
document as parsed (version included), contradicting the claim that a
version mismatch is surfaced to the caller. -/
theorem C7_version_mismatch_counterexample :
    loadLocalState (.doc docV2) = .ok ⟨2, "unmanaged", false, 8080, 8443, []⟩ := by
  decide

/-- C7 (amended): the loader performs no version check — every parsed
document is returned successfully with its version field untouched; unknown
fields are ignored; an unparsable document silently yields the default empty
state instead of an error. -/
theorem C7_loader_behavior (d : StateDoc) (u : List String) :
    loadLocalState (.doc d) = .ok (decodeDoc d)
    ∧ (decodeDoc d).version = d.version
    ∧ decodeDoc { d with unknownFields := u } = decodeDoc d
    ∧ loadLocalState .corrupt = .ok defaultDaemonState :=
  ⟨rfl, rfl, rfl, rfl⟩

/-- C9 counterexample: with no live apps (empty subject set) but an existing
automation-policy list on the control plane, the sync does write: it pushes
the merged list (the foreign policy kept, the owned policy absent). -/
theorem C9_tls_sync_empty_counterexample :
    subjectsOf [] = []
    ∧ (syncDevwrapInternalTLSPolicy tenvFound []).2
        = [.patchPolicies [.nonObj ("ext-policy")]]
    ∧ (syncDevwrapInternalTLSPolicy tenvFound []).2 ≠ [] := by
  decide

/-- C9 (amended): with an empty subject set, no write occurs exactly in the
case where the policy-list fetch reports that none exists; when a policy
list does exist, the sync still writes back the merged list (existing
policies with the owned policy removed). -/
theorem C9_tls_sync_empty_subjects (tenv : TLSEnv) (ps : List Policy) :
    (tenv.fetch = .ok none → syncDevwrapInternalTLSPolicy tenv [] = (.ok (), []))
    ∧ (tenv.fetch = .ok (some ps) →
        (syncDevwrapInternalTLSPolicy tenv []).2.head?
          = some (.patchPolicies (mergeDevwrapInternalTLSPolicy ps []))) := by
  constructor
  · intro hf
    simp [syncDevwrapInternalTLSPolicy, hf, subjectsOf]
  · intro hf
    by_cases hp : tenv.patchOK
    · simp [syncDevwrapInternalTLSPolicy, hf, putTLSAutomationPolicies, hp, subjectsOf]
    · by_cases hq : tenv.putOK <;>
        simp [syncDevwrapInternalTLSPolicy, hf, putTLSAutomationPolicies, hp, hq, subjectsOf]

/-- C9 witness: with no live apps and no existing policy list, a concrete
sync issues no write at all. -/
theorem C9_tls_sync_empty_subjects_witness :
    tenvNone.fetch = .ok none
    ∧ syncDevwrapInternalTLSPolicy tenvNone [] = (.ok (), []) :=
  ⟨by decide, (C9_tls_sync_empty_subjects tenvNone []).1 (by decide)⟩

end Devwrap
